import Mathlib

/-!
Shallow embedding of `blockparty3.py`, a constraint-based solver for the
Block Party 3 puzzle.  Positions are integer pairs `(x, y)`; a `Board`
carries the grid extent, the list of segments, the given values and the
(optional) stored solution, mirroring the Python class `Board`.

The constraint model built by `Board.solve` is embedded by enumerating every
assignment of domain values to grid cells and filtering by the constraints
the Python code actually installs.  Note two behaviours of the source that
the embedding reproduces faithfully:
  * the `if False:` branch in `add_look_constraints` means the
    "a `possible_val` sits at exactly distance `possible_val`" half of the
    look-around rule is never added when some in-bounds cell exists at that
    distance;
  * the lambdas registered with `problem.addConstraint` close over the loop
    variable `possible_val`, which Python binds late: when the solver later
    calls them, `possible_val` holds its final value, the segment length.
-/

set_option maxRecDepth 4000

abbrev Pos : Type := ℤ × ℤ

deriving instance DecidableEq for Except

/-- Errors of the embedded program.  The Python source signals all of them
with `assert` (hence `AssertionError`) or a dict `KeyError`; the
constructors record which failure site fired, using the names the
specification gives to the corresponding conditions. -/
inductive Err : Type where
  | outOfBoundsError : Err
  | partitionError : Err
  | arityError : Err
  | keyError : Err
  | infeasibleError : Err
  deriving DecidableEq, Repr

/-- Embedding of the Python `Board` object: `rows`, `cols`, the segments
(Python sets of positions become lists), the `given_values` dict (an
association list) and the mutable `solved_values` field. -/
structure Board : Type where
  rows : ℕ
  cols : ℕ
  segments : List (List Pos)
  given_values : List (Pos × ℤ)
  solved_values : Option (List (Pos × ℤ))
  deriving DecidableEq, Repr

/-- Association-list lookup, modelling Python dict access (first match). -/
def lookupPos : List (Pos × ℤ) → Pos → Option ℤ
  | [], _ => none
  | (q, v) :: rest, p => if q = p then some v else lookupPos rest p

/-- Python tuple comparison `pos1 < pos2` on integer pairs (lexicographic). -/
def posLt (p q : Pos) : Bool :=
  decide (p.1 < q.1) || (decide (p.1 = q.1) && decide (p.2 < q.2))

/-- Bounds check `0 <= x < cols and 0 <= y < rows` (`Board.in_bounds`). -/
def inBoundsRC (rows cols : ℕ) (p : Pos) : Bool :=
  decide (0 ≤ p.1 ∧ p.1 < (cols : ℤ) ∧ 0 ≤ p.2 ∧ p.2 < (rows : ℤ))

/-- Method `Board.in_bounds`. -/
def Board.in_bounds (b : Board) (p : Pos) : Bool :=
  inBoundsRC b.rows b.cols p

/-- All grid cells, in the iteration order `for y in range(rows): for x in
range(cols): pos = (x, y)` used by `validate_unsolved` and `solve`. -/
def gridRC (rows cols : ℕ) : List Pos :=
  (List.range rows).flatMap (fun (y : ℕ) => (List.range cols).map (fun (x : ℕ) => ((x : ℤ), (y : ℤ))))

/-- Grid cells of a board. -/
def Board.gridPositions (b : Board) : List Pos :=
  gridRC b.rows b.cols

/-- Method `Board.segment_of`: assert the position is in bounds, collect the
segments containing it, assert there is exactly one, return it. -/
def Board.segment_of (b : Board) (p : Pos) : Except Err (List Pos) :=
  if b.in_bounds p = true then
    match b.segments.filter (fun s => decide (p ∈ s)) with
    | [s] => .ok s
    | _ => .error .partitionError
  else .error .outOfBoundsError

/-- Truth of an `Except` computation succeeding. -/
def isOkB {ε α : Type} : Except ε α → Bool
  | .ok _ => true
  | .error _ => false

/-- Method `Board.validate_unsolved`: first assert every segment cell is in
bounds, then assert `segment_of` succeeds on every grid cell. -/
def Board.validate_unsolved (b : Board) : Except Err Unit :=
  if b.segments.all (fun s => s.all (fun p => b.in_bounds p)) then
    if b.gridPositions.all (fun p => isOkB (b.segment_of p)) then .ok ()
    else .error .partitionError
  else .error .outOfBoundsError

/-- Constructor `Board.__init__`: build the object and run
`validate_unsolved`; a failing validation escapes as the recorded error and
no `Board` value is produced. -/
def mkBoard (rows cols : ℕ) (segments : List (List Pos))
    (givens : List (Pos × ℤ)) : Except Err Board :=
  match Board.validate_unsolved ⟨rows, cols, segments, givens, none⟩ with
  | .ok _ => .ok ⟨rows, cols, segments, givens, none⟩
  | .error e => .error e

/-- Method `Board.same_segment`: assert at least two positions, look up the
segment of the first position (propagating its assertion failures), and test
membership of all remaining positions in that segment. -/
def Board.same_segment (b : Board) (positions : List Pos) : Except Err Bool :=
  match positions with
  | p :: q :: rest =>
    match b.segment_of p with
    | .ok seg => .ok ((q :: rest).all (fun r => decide (r ∈ seg)))
    | .error e => .error e
  | _ => .error .arityError

/-- Method `Board.value_at`: a given value takes precedence; otherwise, with
a stored solution, index the solution dict (a missing key raises); with no
solution, return `None`. -/
def Board.value_at (b : Board) (p : Pos) : Except Err (Option ℤ) :=
  match lookupPos b.given_values p with
  | some v => .ok (some v)
  | none =>
    match b.solved_values with
    | some sol =>
      match lookupPos sol p with
      | some v => .ok (some v)
      | none => .error .keyError
    | none => .ok none

/-- Length of the segment containing `p` (`len(self.segment_of(pos))`),
defaulting to `0` where the Python call would raise; `solve` only runs on
validated boards, where `segment_of` succeeds on every grid cell. -/
def Board.segLen (b : Board) (p : Pos) : ℕ :=
  match b.segment_of p with
  | .ok s => s.length
  | .error _ => 0

/-- Domain installed by `problem.addVariable`: the singleton given value, or
`range(1, len(segment_of(pos)) + 1)`. -/
def Board.domainOf (b : Board) (p : Pos) : List ℤ :=
  match lookupPos b.given_values p with
  | some v => [v]
  | none => (List.range (b.segLen p)).map (fun (i : ℕ) => (i : ℤ) + 1)

/-- Value of a cell under a candidate assignment. -/
def valAt (sol : List (Pos × ℤ)) (p : Pos) : ℤ :=
  (lookupPos sol p).getD 0

/-- Cells considered at distance `d` from `p` in `add_look_constraints`, in
source order: `(x, y+d), (x, y-d), (x+d, y), (x-d, y)`. -/
def neighborsAt (p : Pos) (d : ℤ) : List Pos :=
  [(p.1, p.2 + d), (p.1, p.2 - d), (p.1 + d, p.2), (p.1 - d, p.2)]

/-- Every way of drawing one domain value per listed cell, in order: the
search space handed to the constraint solver. -/
def Board.choices (b : Board) : List Pos → List (List (Pos × ℤ))
  | [] => [[]]
  | p :: ps => (b.domainOf p).flatMap (fun v => (b.choices ps).map (fun rest => (p, v) :: rest))

/-- Satisfaction of the constraints `Board.solve` actually installs.

The first conjunct is the per-segment pairwise disequality added for each
pair `pos1 < pos2`.  The second is the residue of `add_look_constraints`
for `pos` with segment length `L` (indices are shifted: `i + 1` is the
Python `possible_val`, `j + 1` the Python `delta`):
  * each registered "no nearer" lambda compares both cells against the
    late-bound final loop value `L`, not against `possible_val`;
  * when no in-bounds cell exists at exactly distance `possible_val` in any
    of the four directions, the registered unary lambda forbids the
    late-bound value `L` at `pos`;
  * the `if False:` branch of the source contributes nothing. -/
def satisfiesB (b : Board) (sol : List (Pos × ℤ)) : Bool :=
  (b.segments.all fun seg => seg.all fun p1 => seg.all fun p2 =>
    !(posLt p1 p2) || decide (valAt sol p1 ≠ valAt sol p2))
  &&
  (b.gridPositions.all fun p =>
    ((List.range (b.segLen p)).all fun i =>
      ((List.range i).all fun (j : ℕ) =>
        (neighborsAt p ((j : ℤ) + 1)).all fun q =>
          !(b.in_bounds q)
            || decide (valAt sol p ≠ (b.segLen p : ℤ))
            || decide (valAt sol q ≠ (b.segLen p : ℤ)))
      &&
      (((neighborsAt p ((i : ℤ) + 1)).any fun q => b.in_bounds q)
        || decide (valAt sol p ≠ (b.segLen p : ℤ)))))

/-- All satisfying assignments of the constraint model, in enumeration
order. -/
def Board.solutions (b : Board) : List (List (Pos × ℤ)) :=
  (b.choices b.gridPositions).filter (fun sol => satisfiesB b sol)

/-- Outcome of `problem.getSolution()`: a complete backtracking search
returns a satisfying assignment exactly when one exists. -/
def Board.solveModel (b : Board) : Option (List (Pos × ℤ)) :=
  b.solutions.head?

/-- Method `Board.solve`: run the solver; on `None` the assertion fires
before `self.solved_values` is written (state unchanged, error reported);
on success the assignment is stored as the new `solved_values`. -/
def Board.solve (b : Board) : Board × Option Err :=
  match b.solveModel with
  | none => (b, some .infeasibleError)
  | some s => ({ b with solved_values := some s }, none)

/-- Direction vectors of the four axis directions. -/
def axisDirs : List Pos := [(0, 1), (0, -1), (1, 0), (-1, 0)]

/-- Cell reached from `p` after `d` steps in direction `dir`. -/
def stepPos (p dir : Pos) (d : ℤ) : Pos :=
  (p.1 + d * dir.1, p.2 + d * dir.2)

/-- Statement of the look-around property claimed of solved boards: in each
axis direction independently, in-bounds cells strictly nearer than the
value of the cell differ from it, and the in-bounds cell at exactly that
distance equals it. -/
def lookAroundProp (b : Board) (sol : List (Pos × ℤ)) : Prop :=
  ∀ p ∈ b.gridPositions, ∀ dir ∈ axisDirs,
    (∀ d : ℤ, 1 ≤ d → d < valAt sol p →
      b.in_bounds (stepPos p dir d) = true →
        valAt sol (stepPos p dir d) ≠ valAt sol p)
    ∧ (b.in_bounds (stepPos p dir (valAt sol p)) = true →
        valAt sol (stepPos p dir (valAt sol p)) = valAt sol p)

/-- Proper-tiling predicate on construction input: every segment cell in
bounds and every grid cell in exactly one listed segment. -/
def properTiling (rows cols : ℕ) (segments : List (List Pos)) : Prop :=
  (∀ seg ∈ segments, ∀ p ∈ seg, inBoundsRC rows cols p = true) ∧
  (∀ p ∈ gridRC rows cols, (segments.filter (fun s => decide (p ∈ s))).length = 1)

instance (rows cols : ℕ) (segments : List (List Pos)) :
    Decidable (properTiling rows cols segments) := by
  unfold properTiling; exact inferInstance

/-- Test board: 1 row, 3 columns, segments `{(0,0),(1,0)}` and `{(2,0)}`. -/
def board3 : Board :=
  ⟨1, 3, [[(0, 0), (1, 0)], [(2, 0)]], [], none⟩

/-- Unique satisfying assignment of the model built for `board3`. -/
def sol3 : List (Pos × ℤ) :=
  [((0, 0), 2), ((1, 0), 1), ((2, 0), 1)]

/-- Test board for spec scenario 1: the 1-by-1 grid with one segment. -/
def board1 : Board :=
  ⟨1, 1, [[(0, 0)]], [], none⟩

/-- Test board with an out-of-range given value `5` on a segment of size 2. -/
def board2g : Board :=
  ⟨1, 2, [[(0, 0), (1, 0)]], [((0, 0), 5)], none⟩

/-- Test board `board3` extended with a given at the out-of-grid position
`(5, 0)`. -/
def board3g : Board :=
  ⟨1, 3, [[(0, 0), (1, 0)], [(2, 0)]], [((5, 0), 1)], none⟩

lemma mem_gridRC (rows cols : ℕ) (p : Pos) :
    p ∈ gridRC rows cols ↔ inBoundsRC rows cols p = true := by
  obtain ⟨px, py⟩ := p
  unfold gridRC inBoundsRC
  constructor
  · intro hmem
    obtain ⟨y, hy, hmem2⟩ := List.mem_flatMap.mp hmem
    obtain ⟨x, hx, heq⟩ := List.mem_map.mp hmem2
    rw [List.mem_range] at hy hx
    cases heq
    rw [decide_eq_true_eq]
    omega
  · intro hbound
    rw [decide_eq_true_eq] at hbound
    refine List.mem_flatMap.mpr ⟨py.toNat, List.mem_range.mpr (by omega), ?_⟩
    refine List.mem_map.mpr ⟨px.toNat, List.mem_range.mpr (by omega), ?_⟩
    rw [Prod.mk.injEq]
    constructor <;> omega

lemma nodup_gridRC (rows cols : ℕ) : (gridRC rows cols).Nodup := by
  unfold gridRC
  rw [List.nodup_flatMap]
  constructor
  · intro y _
    refine List.Nodup.map ?_ (List.nodup_range cols)
    intro a b hab
    simpa using congrArg Prod.fst hab
  · have hr : (List.range rows).Pairwise (· ≠ ·) := List.nodup_range rows
    refine hr.imp ?_
    intro y1 y2 hne
    intro q hq1 hq2
    simp only [List.mem_map, List.mem_range] at hq1 hq2
    obtain ⟨x1, _, rfl⟩ := hq1
    obtain ⟨x2, _, h⟩ := hq2
    exact hne (by simpa using (congrArg Prod.snd h).symm)

lemma choices_lookup (b : Board) :
    ∀ ps : List Pos, ps.Nodup → ∀ sol ∈ b.choices ps, ∀ p ∈ ps,
      ∃ v, lookupPos sol p = some v ∧ v ∈ b.domainOf p := by
  intro ps
  induction ps with
  | nil =>
    intro _ sol _ p hp
    cases hp
  | cons q qs ih =>
    intro hnd sol hsol p hp
    obtain ⟨hq, hqs⟩ := List.nodup_cons.mp hnd
    unfold Board.choices at hsol
    simp only [List.mem_flatMap, List.mem_map] at hsol
    obtain ⟨v, hv, rest, hrest, rfl⟩ := hsol
    rcases List.mem_cons.mp hp with rfl | hp2
    · exact ⟨v, by simp [lookupPos], hv⟩
    · have hne : q ≠ p := fun h => hq (h ▸ hp2)
      obtain ⟨w, hw1, hw2⟩ := ih hqs rest hrest p hp2
      exact ⟨w, by simp [lookupPos, hne, hw1], hw2⟩

lemma validate_ok_parts {b : Board} (h : b.validate_unsolved = .ok ()) :
    (∀ seg ∈ b.segments, ∀ p ∈ seg, b.in_bounds p = true) ∧
    (∀ p ∈ b.gridPositions,
      (b.segments.filter (fun s => decide (p ∈ s))).length = 1) := by
  unfold Board.validate_unsolved at h
  by_cases h1 : b.segments.all (fun s => s.all (fun p => b.in_bounds p)) = true
  · rw [if_pos h1] at h
    by_cases h2 : b.gridPositions.all (fun p => isOkB (b.segment_of p)) = true
    · constructor
      · simpa [List.all_eq_true] using h1
      · intro p hp
        rw [List.all_eq_true] at h2
        have hok := h2 p hp
        have hin : b.in_bounds p = true := by
          have := (mem_gridRC b.rows b.cols p).mp hp
          exact this
        unfold Board.segment_of at hok
        rw [if_pos hin] at hok
        rcases hfil : b.segments.filter (fun s => decide (p ∈ s)) with _ | ⟨s, _ | ⟨t, ts⟩⟩
        · rw [hfil] at hok; simp [isOkB] at hok
        · simp
        · rw [hfil] at hok; simp [isOkB] at hok
    · rw [if_neg h2] at h; cases h
  · rw [if_neg h1] at h; cases h

lemma segment_of_self {b : Board} (hval : b.validate_unsolved = .ok ())
    {p : Pos} (hin : b.in_bounds p = true) :
    ∃ s, b.segment_of p = .ok s ∧ s ∈ b.segments ∧ p ∈ s := by
  obtain ⟨_, hcov⟩ := validate_ok_parts hval
  have hgrid : p ∈ b.gridPositions := (mem_gridRC b.rows b.cols p).mpr hin
  obtain ⟨a, ha⟩ := List.length_eq_one.mp (hcov p hgrid)
  have hmem : a ∈ b.segments.filter (fun s => decide (p ∈ s)) := by
    rw [ha]; exact List.mem_singleton.mpr rfl
  obtain ⟨hseg, hp⟩ := List.mem_filter.mp hmem
  refine ⟨a, ?_, hseg, by simpa using hp⟩
  unfold Board.segment_of
  rw [if_pos hin, ha]

lemma segment_of_eq {b : Board} (hval : b.validate_unsolved = .ok ())
    {s : List Pos} {p : Pos} (hs : s ∈ b.segments) (hp : p ∈ s) :
    b.segment_of p = .ok s := by
  obtain ⟨hb, hcov⟩ := validate_ok_parts hval
  have hin : b.in_bounds p = true := hb s hs p hp
  have hgrid : p ∈ b.gridPositions := (mem_gridRC b.rows b.cols p).mpr hin
  obtain ⟨a, ha⟩ := List.length_eq_one.mp (hcov p hgrid)
  have hmem : s ∈ b.segments.filter (fun t => decide (p ∈ t)) :=
    List.mem_filter.mpr ⟨hs, by simpa using hp⟩
  rw [ha] at hmem
  have hsa : s = a := by simpa using hmem
  subst hsa
  unfold Board.segment_of
  rw [if_pos hin, ha]

lemma validate_fails_oob {b : Board}
    (h : ¬ (∀ seg ∈ b.segments, ∀ p ∈ seg, b.in_bounds p = true)) :
    b.validate_unsolved = .error .outOfBoundsError := by
  have hfalse : ¬ (b.segments.all (fun s => s.all (fun p => b.in_bounds p)) = true) := by
    intro hall
    exact h (by simpa [List.all_eq_true] using hall)
  unfold Board.validate_unsolved
  rw [if_neg hfalse]

lemma validate_fails_partition {b : Board}
    (hib : ∀ seg ∈ b.segments, ∀ p ∈ seg, b.in_bounds p = true)
    (h : ¬ (∀ p ∈ b.gridPositions,
      (b.segments.filter (fun s => decide (p ∈ s))).length = 1)) :
    b.validate_unsolved = .error .partitionError := by
  have h1 : b.segments.all (fun s => s.all (fun p => b.in_bounds p)) = true := by
    simpa [List.all_eq_true] using hib
  rcases h2v : b.gridPositions.all (fun p => isOkB (b.segment_of p)) with _ | _
  · unfold Board.validate_unsolved
    rw [if_pos h1, if_neg (by simp [h2v])]
  · exfalso
    have hok : b.validate_unsolved = .ok () := by
      unfold Board.validate_unsolved
      rw [if_pos h1, if_pos h2v]
    exact h (validate_ok_parts hok).2

lemma posLt_total {p q : Pos} (h : p ≠ q) :
    posLt p q = true ∨ posLt q p = true := by
  obtain ⟨a, b⟩ := p
  obtain ⟨c, d⟩ := q
  have h2 : ¬(a = c ∧ b = d) := by
    rintro ⟨rfl, rfl⟩; exact h rfl
  unfold posLt
  simp only [Bool.or_eq_true, Bool.and_eq_true, decide_eq_true_eq]
  omega

lemma domainOf_ignores_solved (r c : ℕ) (sg : List (List Pos))
    (gv : List (Pos × ℤ)) (sv1 sv2 : Option (List (Pos × ℤ))) (p : Pos) :
    Board.domainOf ⟨r, c, sg, gv, sv1⟩ p = Board.domainOf ⟨r, c, sg, gv, sv2⟩ p := by
  unfold Board.domainOf Board.segLen Board.segment_of Board.in_bounds
  rfl

lemma satisfiesB_ignores_solved (r c : ℕ) (sg : List (List Pos))
    (gv : List (Pos × ℤ)) (sv1 sv2 : Option (List (Pos × ℤ))) (sol : List (Pos × ℤ)) :
    satisfiesB ⟨r, c, sg, gv, sv1⟩ sol = satisfiesB ⟨r, c, sg, gv, sv2⟩ sol := by
  unfold satisfiesB Board.segLen Board.segment_of Board.gridPositions Board.in_bounds
  rfl

lemma choices_ignores_solved (r c : ℕ) (sg : List (List Pos))
    (gv : List (Pos × ℤ)) (sv1 sv2 : Option (List (Pos × ℤ))) :
    ∀ ps, Board.choices ⟨r, c, sg, gv, sv1⟩ ps = Board.choices ⟨r, c, sg, gv, sv2⟩ ps := by
  intro ps
  induction ps with
  | nil => rfl
  | cons p ps ih =>
    unfold Board.choices
    rw [ih, domainOf_ignores_solved r c sg gv sv1 sv2 p]

lemma solveModel_ignores_solved (r c : ℕ) (sg : List (List Pos))
    (gv : List (Pos × ℤ)) (sv1 sv2 : Option (List (Pos × ℤ))) :
    Board.solveModel ⟨r, c, sg, gv, sv1⟩ = Board.solveModel ⟨r, c, sg, gv, sv2⟩ := by
  have hf : (fun sol => satisfiesB ⟨r, c, sg, gv, sv1⟩ sol)
      = (fun sol => satisfiesB ⟨r, c, sg, gv, sv2⟩ sol) :=
    funext (satisfiesB_ignores_solved r c sg gv sv1 sv2)
  have hgp : Board.gridPositions ⟨r, c, sg, gv, sv1⟩
      = Board.gridPositions ⟨r, c, sg, gv, sv2⟩ := by
    unfold Board.gridPositions
    rfl
  unfold Board.solveModel Board.solutions
  rw [choices_ignores_solved r c sg gv sv1 sv2, hf, hgp]

lemma mem_solutions {b : Board} {sol : List (Pos × ℤ)} (h : sol ∈ b.solutions) :
    sol ∈ b.choices b.gridPositions ∧ satisfiesB b sol = true := by
  unfold Board.solutions at h
  exact ⟨(List.mem_filter.mp h).1, (List.mem_filter.mp h).2⟩

lemma satisfies_allDiff {b : Board} {sol : List (Pos × ℤ)}
    (h : satisfiesB b sol = true) :
    ∀ seg ∈ b.segments, ∀ p1 ∈ seg, ∀ p2 ∈ seg, posLt p1 p2 = true →
      valAt sol p1 ≠ valAt sol p2 := by
  unfold satisfiesB at h
  rw [Bool.and_eq_true] at h
  have h1 := h.1
  simp only [List.all_eq_true, Bool.or_eq_true, Bool.not_eq_true',
    decide_eq_true_eq] at h1
  intro seg hs p1 h1m p2 h2m hlt
  rcases h1 seg hs p1 h1m p2 h2m with hfalse | hne
  · rw [hlt] at hfalse; cases hfalse
  · exact hne


/-- Claim C2: a construction input whose segments do not properly tile the grid is
rejected at construction with the corresponding error — `outOfBoundsError`
when some segment cell lies out of bounds (that check runs first), and
`partitionError` when all segment cells are in bounds but some grid cell is
covered by zero or several segments.  Construction returns the error, so no
`Board` value exists and `solve` is never reached on such input. -/
theorem c2_malformed_rejected (rows cols : ℕ) (segments : List (List Pos))
    (givens : List (Pos × ℤ)) (hbad : ¬ properTiling rows cols segments) :
    ∃ e, mkBoard rows cols segments givens = .error e ∧
      (¬ (∀ seg ∈ segments, ∀ p ∈ seg, inBoundsRC rows cols p = true) →
        e = .outOfBoundsError) ∧
      ((∀ seg ∈ segments, ∀ p ∈ seg, inBoundsRC rows cols p = true) →
        e = .partitionError) := by
  by_cases h1 : ∀ seg ∈ segments, ∀ p ∈ seg, inBoundsRC rows cols p = true
  · have hcovfail : ¬ (∀ p ∈ gridRC rows cols,
        (segments.filter (fun s => decide (p ∈ s))).length = 1) :=
      fun hcov => hbad ⟨h1, hcov⟩
    refine ⟨.partitionError, ?_, fun hc => absurd h1 hc, fun _ => rfl⟩
    unfold mkBoard
    rw [validate_fails_partition (b := ⟨rows, cols, segments, givens, none⟩) h1 hcovfail]
  · refine ⟨.outOfBoundsError, ?_, fun _ => rfl, fun hc => absurd hc h1⟩
    unfold mkBoard
    rw [validate_fails_oob (b := ⟨rows, cols, segments, givens, none⟩) h1]

/-- Witness for claim C2: the empty segment list does not cover the 1-by-1 grid, and
construction indeed fails with `partitionError`. -/
theorem c2_malformed_rejected_witness :
    mkBoard 1 1 [] [] = .error .partitionError := by
  obtain ⟨e, h1, _, h3⟩ := c2_malformed_rejected 1 1 [] [] (by decide)
  rw [h3 (by decide)] at h1
  exact h1

/-- Claim C3: the claim asserts the 1-by-1 board solves to `{(0,0): 1}`.  The code
disagrees: since no in-bounds cell lies at distance 1 from `(0,0)` in any
direction, `add_look_constraints` adds the unary constraint forbidding the
value, the model has no satisfying assignment (in particular the claimed
solution violates the built constraints), and `solve` fails with the
infeasibility assertion instead of storing `{(0,0): 1}`. -/
theorem c3_one_by_one_infeasible :
    board1.solutions = [] ∧
    board1.solve = (board1, some .infeasibleError) ∧
    satisfiesB board1 [(((0 : ℤ), (0 : ℤ)), 1)] = false := by decide

/-- Claim C1: the claim asserts every solved board satisfies the look-around
property.  The code disagrees: on `board3` the solver succeeds and stores
`sol3`, yet `sol3` gives `(0,0)` the value 2 while the in-bounds cell at
exactly distance 2 to the right, `(2,0)`, holds 1 — the "equals v at
distance v" half of the rule is never enforced (the `if False:` branch). -/
theorem c1_look_around_violated :
    board3.solve = ({ board3 with solved_values := some sol3 }, none) ∧
    ¬ lookAroundProp board3 sol3 := by
  constructor
  · decide
  · intro h
    have hmem : (((0 : ℤ), (0 : ℤ)) : Pos) ∈ board3.gridPositions := by decide
    have hdir : (((1 : ℤ), (0 : ℤ)) : Pos) ∈ axisDirs := by decide
    have h2 := (h ((0 : ℤ), (0 : ℤ)) hmem ((1 : ℤ), (0 : ℤ)) hdir).2
    rw [show valAt sol3 ((0 : ℤ), (0 : ℤ)) = 2 from by decide] at h2
    rw [show stepPos ((0 : ℤ), (0 : ℤ)) ((1 : ℤ), (0 : ℤ)) 2 = ((2 : ℤ), (0 : ℤ))
      from by decide] at h2
    have h3 := h2 (by decide)
    rw [show valAt sol3 ((2 : ℤ), (0 : ℤ)) = 1 from by decide] at h3
    exact absurd h3 (by decide)

/-- Counterexample for claim C4: the claim, quantified over every solved board, fails.
`board2g` carries the given value 5 on `(0,0)`, whose segment has size 2;
construction accepts it, `solve` succeeds, and the stored solution assigns
`(0,0)` the value 5, which does not lie in `[1, 2]`. -/
theorem c4_values_counterexample :
    board2g.validate_unsolved = .ok () ∧
    board2g.solve =
      ({ board2g with
          solved_values := some [(((0 : ℤ), (0 : ℤ)), 5), (((1 : ℤ), (0 : ℤ)), 1)] },
        none) ∧
    (((0 : ℤ), (0 : ℤ)) : Pos) ∈ [(((0 : ℤ), (0 : ℤ)) : Pos), ((1 : ℤ), (0 : ℤ))] ∧
    [(((0 : ℤ), (0 : ℤ)) : Pos), ((1 : ℤ), (0 : ℤ))] ∈ board2g.segments ∧
    valAt [(((0 : ℤ), (0 : ℤ)), 5), (((1 : ℤ), (0 : ℤ)), 1)] ((0 : ℤ), (0 : ℤ)) = 5 ∧
    board2g.segLen ((0 : ℤ), (0 : ℤ)) = 2 ∧
    ¬ ((5 : ℤ) ≤ (board2g.segLen ((0 : ℤ), (0 : ℤ)) : ℤ)) := by decide

/-- Claim C4 as amended: for every validated board whose given values all lie
within `[1, segment size]`, every satisfying assignment of the built model —
hence anything `solve` can store — assigns pairwise-distinct values to the
cells of each segment, and every assigned value lies in `[1, size of that
segment of that cell]`. -/
theorem c4_segment_values (b : Board) (hv : b.validate_unsolved = .ok ())
    (hg : ∀ p ∈ b.gridPositions, ∀ v : ℤ, lookupPos b.given_values p = some v →
      1 ≤ v ∧ v ≤ (b.segLen p : ℤ)) :
    ∀ sol ∈ b.solutions,
      (∀ seg ∈ b.segments, ∀ p1 ∈ seg, ∀ p2 ∈ seg, p1 ≠ p2 →
        valAt sol p1 ≠ valAt sol p2) ∧
      (∀ p ∈ b.gridPositions, 1 ≤ valAt sol p ∧ valAt sol p ≤ (b.segLen p : ℤ)) := by
  intro sol hsol
  obtain ⟨hch, hsat⟩ := mem_solutions hsol
  constructor
  · intro seg hs p1 h1 p2 h2 hne
    rcases posLt_total hne with hlt | hlt
    · exact satisfies_allDiff hsat seg hs p1 h1 p2 h2 hlt
    · exact (satisfies_allDiff hsat seg hs p2 h2 p1 h1 hlt).symm
  · intro p hp
    obtain ⟨v, hv1, hv2⟩ :=
      choices_lookup b b.gridPositions (nodup_gridRC b.rows b.cols) sol hch p hp
    have hval : valAt sol p = v := by unfold valAt; rw [hv1]; rfl
    rw [hval]
    unfold Board.domainOf at hv2
    rcases hlk : lookupPos b.given_values p with _ | w
    · rw [hlk] at hv2
      simp only [List.mem_map, List.mem_range] at hv2
      obtain ⟨i, hi, rfl⟩ := hv2
      constructor <;> omega
    · rw [hlk] at hv2
      have hvw : v = w := by simpa using hv2
      subst hvw
      exact hg p hp v hlk

/-- Witness for claim C4: instantiated on `board3` (no givens) and its unique solution
`sol3`: the two cells of the first segment get distinct values and the
value at `(0,0)` lies within `[1, 2]`. -/
theorem c4_segment_values_witness :
    valAt sol3 ((0 : ℤ), (0 : ℤ)) ≠ valAt sol3 ((1 : ℤ), (0 : ℤ)) ∧
    1 ≤ valAt sol3 ((0 : ℤ), (0 : ℤ)) ∧
    valAt sol3 ((0 : ℤ), (0 : ℤ)) ≤ (board3.segLen ((0 : ℤ), (0 : ℤ)) : ℤ) := by
  have h := c4_segment_values board3 (by decide)
    (fun p _ v hvv => by simp [board3, lookupPos] at hvv) sol3 (by decide)
  refine ⟨?_, h.2 ((0 : ℤ), (0 : ℤ)) (by decide)⟩
  exact h.1 [(((0 : ℤ), (0 : ℤ)) : Pos), ((1 : ℤ), (0 : ℤ))] (by decide)
    ((0 : ℤ), (0 : ℤ)) (by decide) ((1 : ℤ), (0 : ℤ)) (by decide) (by decide)

/-- Claim C5: on a validated board, `solve` fails with the infeasibility error
exactly when the model has no satisfying assignment, and on success stores
the produced assignment as the new `solved_values`, replacing whatever
solution was previously stored. -/
theorem c5_solve_outcome (b : Board) (hv : b.validate_unsolved = .ok ()) :
    (b.solveModel = none → b.solve = (b, some .infeasibleError)) ∧
    (∀ s, b.solveModel = some s → ∀ prev,
      Board.solve { b with solved_values := prev } =
        ({ b with solved_values := some s }, none)) := by
  obtain ⟨r, c, sg, gv, sv⟩ := b
  constructor
  · intro h
    unfold Board.solve
    rw [h]
  · intro s h prev
    have hsame : Board.solveModel ⟨r, c, sg, gv, prev⟩ =
        Board.solveModel ⟨r, c, sg, gv, sv⟩ := solveModel_ignores_solved r c sg gv prev sv
    unfold Board.solve
    rw [hsame, h]

/-- Witness for claim C5: re-solving `board3` with a stale stored solution replaces it
with the produced assignment `sol3`. -/
theorem c5_solve_outcome_witness :
    Board.solve { board3 with solved_values := some [(((0 : ℤ), (0 : ℤ)), 9)] } =
      ({ board3 with solved_values := some sol3 }, none) :=
  (c5_solve_outcome board3 (by decide)).2 sol3 (by decide)
    (some [(((0 : ℤ), (0 : ℤ)), 9)])

/-- Claim C6: the claim asserts a given value outside `[1, segment size]` makes
model building fail with a given-value error before solving.  The code
disagrees: `board2g`, whose given value 5 exceeds its segment size 2, passes
construction, its given becomes the singleton domain of `(0,0)`, and `solve`
completes without any error, storing a solution that keeps the value 5. -/
theorem c6_given_out_of_range_not_rejected :
    lookupPos board2g.given_values ((0 : ℤ), (0 : ℤ)) = some 5 ∧
    board2g.segLen ((0 : ℤ), (0 : ℤ)) = 2 ∧
    board2g.domainOf ((0 : ℤ), (0 : ℤ)) = [5] ∧
    board2g.validate_unsolved = .ok () ∧
    (board2g.solve).2 = none ∧
    (board2g.solve).1.solved_values =
      some [(((0 : ℤ), (0 : ℤ)), 5), (((1 : ℤ), (0 : ℤ)), 1)] := by decide

/-- Claim C10: when the solver finds no satisfying assignment, the infeasibility
assertion fires before `solved_values` is written, so a failed `solve`
leaves the previously stored solution (or its absence) unchanged. -/
theorem c10_failed_solve_keeps_state (b : Board) (hv : b.validate_unsolved = .ok ())
    (hnone : b.solveModel = none) :
    (b.solve).1.solved_values = b.solved_values ∧
    (b.solve).2 = some .infeasibleError := by
  unfold Board.solve
  rw [hnone]
  exact ⟨rfl, rfl⟩

/-- Witness for claim C10: the infeasible 1-by-1 board, pre-loaded with a stored
solution, keeps that solution across the failed `solve`. -/
theorem c10_failed_solve_keeps_state_witness :
    (Board.solve { board1 with solved_values := some [(((0 : ℤ), (0 : ℤ)), 7)] }).1.solved_values
        = some [(((0 : ℤ), (0 : ℤ)), 7)] ∧
    (Board.solve { board1 with solved_values := some [(((0 : ℤ), (0 : ℤ)), 7)] }).2
        = some .infeasibleError :=
  c10_failed_solve_keeps_state
    { board1 with solved_values := some [(((0 : ℤ), (0 : ℤ)), 7)] }
    (by decide) (by decide)

/-- Computation of `same_segment` once the segment lookup of the first position
succeeds. -/
lemma same_segment_cons {b : Board} {p : Pos} {seg : List Pos}
    (hse : b.segment_of p = .ok seg) (q : Pos) (rest : List Pos) :
    b.same_segment (p :: q :: rest)
      = .ok ((q :: rest).all (fun r => decide (r ∈ seg))) := by
  show (match b.segment_of p with
    | .ok s => Except.ok ((q :: rest).all (fun r => decide (r ∈ s)))
    | .error e => Except.error e)
      = .ok ((q :: rest).all (fun r => decide (r ∈ seg)))
  rw [hse]

/-- Counterexample for claim C7: the claim, as stated, fails.  On `board3g` the given
position `(5, 0)` lies outside the grid; `solve` succeeds but the stored
solution does not assign `(5, 0)` at all.  Moreover, on the solved board the
query `value_at (9, 9)` — a position with neither a given nor a solution
value — raises a key error instead of returning the unknown marker. -/
theorem c7_value_at_counterexample :
    board3g.solve = ({ board3g with solved_values := some sol3 }, none) ∧
    lookupPos board3g.given_values ((5 : ℤ), (0 : ℤ)) = some 1 ∧
    lookupPos sol3 ((5 : ℤ), (0 : ℤ)) = none ∧
    lookupPos board3g.given_values ((9 : ℤ), (9 : ℤ)) = none ∧
    lookupPos sol3 ((9 : ℤ), (9 : ℤ)) = none ∧
    Board.value_at { board3g with solved_values := some sol3 } ((9 : ℤ), (9 : ℤ))
      = .error .keyError := by decide

/-- Claim C7 as amended: on a validated board, restricted to in-bounds positions:
every in-bounds given position keeps exactly its given value in every model
solution; `value_at` returns the given value in preference to any solution
value; with no given and no stored solution it returns the unknown marker;
and with no given and a stored model solution it returns the value that
solution holds for the position. -/
theorem c7_value_at_amended (b : Board) (hv : b.validate_unsolved = .ok ()) :
    (∀ sol ∈ b.solutions, ∀ p ∈ b.gridPositions, ∀ v : ℤ,
      lookupPos b.given_values p = some v → lookupPos sol p = some v) ∧
    (∀ p : Pos, ∀ v : ℤ, lookupPos b.given_values p = some v →
      b.value_at p = .ok (some v)) ∧
    (∀ p : Pos, lookupPos b.given_values p = none → b.solved_values = none →
      b.value_at p = .ok none) ∧
    (∀ sol ∈ b.solutions, ∀ p ∈ b.gridPositions,
      lookupPos b.given_values p = none →
      Board.value_at { b with solved_values := some sol } p
        = .ok (some (valAt sol p))) := by
  refine ⟨?_, ?_, ?_, ?_⟩
  · intro sol hsol p hp v hgv
    obtain ⟨w, hw1, hw2⟩ := choices_lookup b b.gridPositions
      (nodup_gridRC b.rows b.cols) sol (mem_solutions hsol).1 p hp
    unfold Board.domainOf at hw2
    rw [hgv] at hw2
    have hwv : w = v := by simpa using hw2
    rw [← hwv]
    exact hw1
  · intro p v hgv
    unfold Board.value_at
    rw [hgv]
  · intro p hgv hsv
    unfold Board.value_at
    rw [hgv, hsv]
  · intro sol hsol p hp hgv
    obtain ⟨w, hw1, hw2⟩ := choices_lookup b b.gridPositions
      (nodup_gridRC b.rows b.cols) sol (mem_solutions hsol).1 p hp
    have hval : valAt sol p = w := by
      unfold valAt
      rw [hw1]
      rfl
    rw [hval]
    obtain ⟨r, c, sg, gv, sv⟩ := b
    show Board.value_at ⟨r, c, sg, gv, some sol⟩ p = .ok (some w)
    unfold Board.value_at
    simp only [hgv, hw1]

/-- Witness for claim C7: on the validated board `board3g` with its model solution
`sol3` stored, `value_at` at the non-given in-bounds cell `(0,0)` returns
the value held by the solution. -/
theorem c7_value_at_amended_witness :
    Board.value_at { board3g with solved_values := some sol3 } ((0 : ℤ), (0 : ℤ))
      = .ok (some (valAt sol3 ((0 : ℤ), (0 : ℤ)))) :=
  (c7_value_at_amended board3g (by decide)).2.2.2 sol3 (by decide)
    ((0 : ℤ), (0 : ℤ)) (by decide) (by decide)

/-- Claim C8: on a validated board, `same_segment` requires at least two
positions (fewer is the arity assertion failure); for an in-bounds first
position it returns true exactly when all remaining positions lie in the
segment of the first position; and restricted to in-bounds positions it is
reflexive, symmetric and transitive within a segment and false across
distinct segments. -/
theorem c8_same_segment_props (b : Board) (hv : b.validate_unsolved = .ok ()) :
    (∀ ps : List Pos, ps.length ≤ 1 → b.same_segment ps = .error .arityError) ∧
    (∀ p q : Pos, ∀ rest : List Pos, b.in_bounds p = true →
      ∃ seg, b.segment_of p = .ok seg ∧ p ∈ seg ∧
        (b.same_segment (p :: q :: rest) = .ok true ↔ ∀ r ∈ q :: rest, r ∈ seg)) ∧
    (∀ p : Pos, b.in_bounds p = true → b.same_segment [p, p] = .ok true) ∧
    (∀ p q : Pos, b.in_bounds p = true → b.in_bounds q = true →
      b.same_segment [p, q] = b.same_segment [q, p]) ∧
    (∀ p q r : Pos, b.in_bounds p = true → b.in_bounds q = true →
      b.same_segment [p, q] = .ok true → b.same_segment [q, r] = .ok true →
      b.same_segment [p, r] = .ok true) ∧
    (∀ p q : Pos, ∀ s1 s2 : List Pos, s1 ∈ b.segments → s2 ∈ b.segments →
      p ∈ s1 → q ∈ s2 → s1 ≠ s2 → b.same_segment [p, q] = .ok false) := by
  refine ⟨?_, ?_, ?_, ?_, ?_, ?_⟩
  · intro ps hlen
    rcases ps with _ | ⟨p, _ | ⟨q, rest⟩⟩
    · rfl
    · rfl
    · exfalso
      simp only [List.length_cons] at hlen
      omega
  · intro p q rest hp
    obtain ⟨seg, hse, hsmem, hpseg⟩ := segment_of_self hv hp
    refine ⟨seg, hse, hpseg, ?_⟩
    rw [same_segment_cons hse q rest]
    constructor
    · intro h
      have hall : ((q :: rest).all (fun r => decide (r ∈ seg))) = true := by
        injection h
      simpa [List.all_eq_true] using hall
    · intro h
      have hall : ((q :: rest).all (fun r => decide (r ∈ seg))) = true := by
        simpa [List.all_eq_true] using h
      rw [hall]
  · intro p hp
    obtain ⟨seg, hse, hsmem, hpseg⟩ := segment_of_self hv hp
    rw [same_segment_cons hse p []]
    simp [hpseg]
  · intro p q hp hq
    obtain ⟨sp, hsp, hspmem, hpsp⟩ := segment_of_self hv hp
    obtain ⟨sq, hsq, hsqmem, hqsq⟩ := segment_of_self hv hq
    rw [same_segment_cons hsp q [], same_segment_cons hsq p []]
    by_cases hqin : q ∈ sp
    · have hA : b.segment_of q = .ok sp := segment_of_eq hv hspmem hqin
      rw [hA] at hsq
      have heq : sp = sq := by injection hsq
      subst heq
      simp [hqin, hpsp]
    · have hpnq : p ∉ sq := by
        intro hpin
        have hB : b.segment_of p = .ok sq := segment_of_eq hv hsqmem hpin
        rw [hB] at hsp
        have heq : sq = sp := by injection hsp
        exact hqin (heq ▸ hqsq)
      simp [hqin, hpnq]
  · intro p q r hp hq hpq hqr
    obtain ⟨sp, hsp, hspmem, hpsp⟩ := segment_of_self hv hp
    obtain ⟨sq, hsq, hsqmem, hqsq⟩ := segment_of_self hv hq
    rw [same_segment_cons hsp q []] at hpq
    rw [same_segment_cons hsq r []] at hqr
    have hqsp : q ∈ sp := by
      have hall : (([q] : List Pos).all (fun t => decide (t ∈ sp))) = true := by
        injection hpq
      simpa using hall
    have hrsq : r ∈ sq := by
      have hall : (([r] : List Pos).all (fun t => decide (t ∈ sq))) = true := by
        injection hqr
      simpa using hall
    have hA : b.segment_of q = .ok sp := segment_of_eq hv hspmem hqsp
    rw [hA] at hsq
    have heq : sp = sq := by injection hsq
    rw [same_segment_cons hsp r []]
    simp [heq ▸ hrsq]
  · intro p q s1 s2 hs1 hs2 hp1 hq2 hne
    have h1 : b.segment_of p = .ok s1 := segment_of_eq hv hs1 hp1
    have hq1 : q ∉ s1 := by
      intro hqin
      have hA : b.segment_of q = .ok s1 := segment_of_eq hv hs1 hqin
      have hB : b.segment_of q = .ok s2 := segment_of_eq hv hs2 hq2
      rw [hA] at hB
      have : s1 = s2 := by injection hB
      exact hne this
    rw [same_segment_cons h1 q []]
    simp [hq1]

/-- Witness for claim C8: reflexivity instantiated on `board3` at the in-bounds cell
`(0, 0)`. -/
theorem c8_same_segment_props_witness :
    board3.same_segment [(((0 : ℤ), (0 : ℤ)) : Pos), ((0 : ℤ), (0 : ℤ))] = .ok true :=
  (c8_same_segment_props board3 (by decide)).2.2.1 ((0 : ℤ), (0 : ℤ)) (by decide)

/-- Claim C9: the method `same_segment` validates only its first position: on a validated
board, when the first position is in bounds, the call returns `false`
(rather than failing) whenever some later position is out of bounds or
belongs to no segment. -/
theorem c9_later_positions_unvalidated (b : Board)
    (hv : b.validate_unsolved = .ok ()) (p : Pos) (rest : List Pos)
    (hp : b.in_bounds p = true)
    (hbad : ∃ q ∈ rest, b.in_bounds q = false ∨ ∀ seg ∈ b.segments, q ∉ seg) :
    b.same_segment (p :: rest) = .ok false := by
  obtain ⟨seg, hse, hsmem, hpseg⟩ := segment_of_self hv hp
  obtain ⟨q, hq, hcase⟩ := hbad
  have hqnot : q ∉ seg := by
    rcases hcase with hoob | hnone
    · intro hqin
      have h1 := (validate_ok_parts hv).1 seg hsmem q hqin
      rw [h1] at hoob
      cases hoob
    · exact hnone seg hsmem
  rcases rest with _ | ⟨r0, rtail⟩
  · cases hq
  · rw [same_segment_cons hse r0 rtail]
    have hall : ((r0 :: rtail).all (fun t => decide (t ∈ seg))) = false :=
      List.all_eq_false.mpr ⟨q, hq, by simp [hqnot]⟩
    rw [hall]

/-- Witness for claim C9: on `board3`, querying the in-bounds cell `(0, 0)` together
with the out-of-bounds position `(7, 7)` returns `false` without error. -/
theorem c9_later_positions_unvalidated_witness :
    board3.same_segment [(((0 : ℤ), (0 : ℤ)) : Pos), ((7 : ℤ), (7 : ℤ))] = .ok false :=
  c9_later_positions_unvalidated board3 (by decide) ((0 : ℤ), (0 : ℤ))
    [((7 : ℤ), (7 : ℤ))] (by decide)
    ⟨((7 : ℤ), (7 : ℤ)), by decide, Or.inl (by decide)⟩
